import Mathlib

set_option maxHeartbeats 1000000

/-!
Shallow embedding of the credential-pool state layer of the proxy:

* `TokenCooldownManager` (src/src/auth/token_cooldown_manager.js): per-credential,
  per-model-family cooldown registry (`getGroupKey`, `setCooldown`, `isAvailable`,
  `getCooldownUntil`).
* Signature cache (src/unnamed/part_000): per-base-model bounded history of
  `{signature, content}` entries (`makeModelKey`, `pushEntry`, `setSignature`,
  `getSignature`).
* `TokenStore` (src/unnamed/part_001): credential document persistence
  (`getSalt`, `readAll`, `writeAll`, `mergeActiveTokens`).

JavaScript strings are Lean `String`s, with the empty string standing for a
falsy (absent) string argument; timestamps are `Nat`, with `0` standing for a
falsy timestamp; JS objects are association lists; file-system effects are
explicit state passing with an environment of I/O outcomes.
-/

/-! ## String helpers: JS `toLowerCase`, `includes`, `endsWith` -/

/-- `charsStart p s`: the character list `p` is an initial segment of `s`. -/
def charsStart : List Char → List Char → Bool
  | [], _ => true
  | _ :: _, [] => false
  | a :: as, b :: bs => a == b && charsStart as bs

/-- `charsHave p s`: the character list `p` occurs contiguously inside `s`. -/
def charsHave (p : List Char) : List Char → Bool
  | [] => p.isEmpty
  | c :: cs => charsStart p (c :: cs) || charsHave p cs

/-- JS `String.prototype.toLowerCase` (ASCII case folding). -/
def strLower (s : String) : String := ⟨s.data.map Char.toLower⟩

/-- JS `String.prototype.includes`. -/
def strHas (s pat : String) : Bool := charsHave pat.data s.data

/-- JS `String.prototype.endsWith`. -/
def strEndsWith (s pat : String) : Bool := charsStart pat.data.reverse s.data.reverse

/-! ## Association lists: JS `Map` / plain-object field access -/

/-- JS `Map.prototype.get` / object property read (absent key gives `none`). -/
def alookup {α : Type} : List (String × α) → String → Option α
  | [], _ => none
  | (k, v) :: rest, key => if k = key then some v else alookup rest key

/-- JS `Map.prototype.set` / object property assignment: update in place when
the key exists, append otherwise. -/
def aset {α : Type} : List (String × α) → String → α → List (String × α)
  | [], key, v => [(key, v)]
  | (k, w) :: rest, key, v =>
    if k = key then (key, v) :: rest else (k, w) :: aset rest key v

theorem alookup_aset_self {α : Type} (l : List (String × α)) (k : String) (v : α) :
    alookup (aset l k v) k = some v := by
  induction l with
  | nil => simp [aset, alookup]
  | cons p rest ih =>
    obtain ⟨k', w⟩ := p
    by_cases h : k' = k <;> simp [aset, alookup, h, ih]

theorem alookup_aset_ne {α : Type} (l : List (String × α)) (k k' : String) (v : α)
    (h : k' ≠ k) : alookup (aset l k v) k' = alookup l k' := by
  induction l with
  | nil => simp [aset, alookup, Ne.symm h]
  | cons p rest ih =>
    obtain ⟨k0, w⟩ := p
    by_cases h0 : k0 = k
    · subst h0
      simp [aset, alookup, h, Ne.symm h]
    · simp [aset, alookup, h0, ih]

/-! ## TokenCooldownManager (src/src/auth/token_cooldown_manager.js)

In-memory state: `Map<tokenId, { [groupKey]: { until } | null }>`.  The inner
object value is `Option Nat`: `some u` is `{ until: u }`, `none` is the JS
`null` written by expiry clearing.  `saveToFile`/logging are I/O side effects
with no bearing on the in-memory contract and are omitted. -/

structure CooldownState where
  cooldowns : List (String × List (String × Option Nat))
deriving Repr, DecidableEq

/-- `getGroupKey` (lines 124-131): case-insensitive substring classification,
claude first, then the image variant, then generic gemini, else other. -/
def getGroupKey (modelId : String) : String :=
  if modelId = "" then "other"
  else
    let lower := strLower modelId
    if strHas lower "claude" then "claude"
    else if strHas lower "gemini-3-pro-image" then "banana"
    else if strHas lower "gemini" || strHas lower "publishers/google/" then "gemini"
    else "other"

/-- `setCooldown` (lines 139-156): no-op on falsy `tokenId`/`untilTimestamp`,
otherwise overwrite the family entry unconditionally. -/
def setCooldown (st : CooldownState) (tokenId modelId : String)
    (untilTimestamp : Nat) : CooldownState :=
  if tokenId = "" ∨ untilTimestamp = 0 then st
  else
    let groupKey := getGroupKey modelId
    let groups := (alookup st.cooldowns tokenId).getD []
    ⟨aset st.cooldowns tokenId (aset groups groupKey (some untilTimestamp))⟩

/-- `isAvailable` (lines 164-185): true on falsy token or absent/expired entry;
observing an expired entry clears it (a read can mutate state); a live entry
gives false.  Returns the boolean with the possibly-updated state. -/
def isAvailable (st : CooldownState) (now : Nat) (tokenId modelId : String) :
    Bool × CooldownState :=
  if tokenId = "" then (true, st)
  else
    match alookup st.cooldowns tokenId with
    | none => (true, st)
    | some groups =>
      let groupKey := getGroupKey modelId
      match alookup groups groupKey with
      | none => (true, st)
      | some none => (true, st)
      | some (some u) =>
        if u = 0 then (true, st)
        else if u ≤ now then
          (true, ⟨aset st.cooldowns tokenId (aset groups groupKey none)⟩)
        else (false, st)

/-- `getCooldownUntil` (lines 193-210): same expiry semantics as `isAvailable`
but returns the deadline and never mutates. -/
def getCooldownUntil (st : CooldownState) (now : Nat) (tokenId modelId : String) :
    Option Nat :=
  if tokenId = "" then none
  else
    match alookup st.cooldowns tokenId with
    | none => none
    | some groups =>
      match alookup groups (getGroupKey modelId) with
      | none => none
      | some none => none
      | some (some u) =>
        if u = 0 then none
        else if u ≤ now then none
        else some u

/-- Claim C1: for every credential id (non-absent), model id and strictly
future deadline, and regardless of any cooldown previously set for that pair,
immediately after `setCooldown` the pair is unavailable with
`getCooldownUntil` returning the deadline, and once the clock reaches the
deadline the pair is available again with `getCooldownUntil` absent. -/
theorem cooldown_set_then_expire (st : CooldownState) (tid mid : String)
    (u now now2 : Nat) (htid : tid ≠ "") (hfut : now < u) (hpast : u ≤ now2) :
    (isAvailable (setCooldown st tid mid u) now tid mid).1 = false ∧
    getCooldownUntil (setCooldown st tid mid u) now tid mid = some u ∧
    (isAvailable (setCooldown st tid mid u) now2 tid mid).1 = true ∧
    getCooldownUntil (setCooldown st tid mid u) now2 tid mid = none := by
  have hu : u ≠ 0 := by omega
  have hset : setCooldown st tid mid u =
      ⟨aset st.cooldowns tid
        (aset ((alookup st.cooldowns tid).getD []) (getGroupKey mid) (some u))⟩ := by
    simp [setCooldown, htid, hu]
  rw [hset]
  have hl : alookup (aset st.cooldowns tid
      (aset ((alookup st.cooldowns tid).getD []) (getGroupKey mid) (some u))) tid =
      some (aset ((alookup st.cooldowns tid).getD []) (getGroupKey mid) (some u)) :=
    alookup_aset_self _ _ _
  have hg : alookup (aset ((alookup st.cooldowns tid).getD [])
      (getGroupKey mid) (some u)) (getGroupKey mid) = some (some u) :=
    alookup_aset_self _ _ _
  have hnow : ¬ u ≤ now := by omega
  refine ⟨?_, ?_, ?_, ?_⟩
  · simp [isAvailable, htid, hl, hg, hu, hnow]
  · simp [getCooldownUntil, htid, hl, hg, hu, hnow]
  · simp [isAvailable, htid, hl, hg, hu, hpast]
  · simp [getCooldownUntil, htid, hl, hg, hu, hpast]

theorem cooldown_set_then_expire_witness :
    (isAvailable (setCooldown ⟨[]⟩ "t1" "claude-3-opus" 100) 50 "t1" "claude-3-opus").1 = false ∧
    getCooldownUntil (setCooldown ⟨[]⟩ "t1" "claude-3-opus" 100) 50 "t1" "claude-3-opus" = some 100 ∧
    (isAvailable (setCooldown ⟨[]⟩ "t1" "claude-3-opus" 100) 200 "t1" "claude-3-opus").1 = true ∧
    getCooldownUntil (setCooldown ⟨[]⟩ "t1" "claude-3-opus" 100) 200 "t1" "claude-3-opus" = none :=
  cooldown_set_then_expire ⟨[]⟩ "t1" "claude-3-opus" 100 50 200
    (by decide) (by decide) (by decide)

theorem charsStart_trans (p q r : List Char) (hpq : charsStart p q = true)
    (hqr : charsStart q r = true) : charsStart p r = true := by
  induction p generalizing q r with
  | nil => simp [charsStart]
  | cons a as ih =>
    cases q with
    | nil => simp [charsStart] at hpq
    | cons b bs =>
      cases r with
      | nil => simp [charsStart] at hqr
      | cons c cs =>
        simp [charsStart] at hpq hqr ⊢
        exact ⟨hpq.1.trans hqr.1, ih bs cs hpq.2 hqr.2⟩

theorem charsHave_of_charsStart (p q : List Char) (s : List Char)
    (hpq : charsStart p q = true) (hqs : charsHave q s = true) :
    charsHave p s = true := by
  induction s with
  | nil =>
    simp [charsHave, List.isEmpty_iff] at hqs
    subst hqs
    cases p with
    | nil => simp [charsHave]
    | cons a as => simp [charsStart] at hpq
  | cons c cs ih =>
    simp only [charsHave, Bool.or_eq_true] at hqs ⊢
    rcases hqs with hqs | hqs
    · exact Or.inl (charsStart_trans p q (c :: cs) hpq hqs)
    · exact Or.inr (ih hqs)

theorem strHas_mono (s pat1 pat2 : String) (hstart : charsStart pat2.data pat1.data = true)
    (h : strHas s pat1 = true) : strHas s pat2 = true :=
  charsHave_of_charsStart pat2.data pat1.data s.data hstart h

theorem strHas_empty_left (pat : String) (hp : pat.data ≠ []) :
    strHas "" pat = false := by
  cases hpat : pat.data with
  | nil => exact absurd hpat hp
  | cons c cs => simp [strHas, hpat, charsHave, List.isEmpty_iff]

/-- Claim C2: family classification is case-insensitive substring matching in
the fixed priority order claude, then the image-variant marker, then generic
gemini: any identifier containing "claude" (case-insensitively) classifies as
claude regardless of other substrings; any identifier free of "claude" but
containing the image-variant marker "gemini-3-pro-image" classifies as the
image family ("banana") even though it necessarily also contains the generic
"gemini" substring. -/
theorem getGroupKey_priority (m : String) :
    (strHas (strLower m) "claude" = true → getGroupKey m = "claude") ∧
    (strHas (strLower m) "claude" = false →
      strHas (strLower m) "gemini-3-pro-image" = true →
      getGroupKey m = "banana" ∧ strHas (strLower m) "gemini" = true) := by
  constructor
  · intro hcl
    have hm : m ≠ "" := by
      intro he
      subst he
      rw [show strLower "" = "" from rfl] at hcl
      rw [strHas_empty_left "claude" (by decide)] at hcl
      exact Bool.false_ne_true hcl
    simp [getGroupKey, hm, hcl]
  · intro hcl himg
    have hm : m ≠ "" := by
      intro he
      subst he
      rw [show strLower "" = "" from rfl] at himg
      rw [strHas_empty_left "gemini-3-pro-image" (by decide)] at himg
      exact Bool.false_ne_true himg
    have hgem : strHas (strLower m) "gemini" = true :=
      strHas_mono (strLower m) "gemini-3-pro-image" "gemini" (by decide) himg
    refine ⟨?_, hgem⟩
    simp [getGroupKey, hm, hcl, himg]

theorem getGroupKey_priority_witness :
    getGroupKey "Claude-on-gemini-3-pro-image" = "claude" ∧
    getGroupKey "GEMINI-3-Pro-Image-4K" = "banana" ∧
    strHas (strLower "GEMINI-3-Pro-Image-4K") "gemini" = true :=
  ⟨(getGroupKey_priority "Claude-on-gemini-3-pro-image").1 (by decide),
   ((getGroupKey_priority "GEMINI-3-Pro-Image-4K").2 (by decide) (by decide)).1,
   ((getGroupKey_priority "GEMINI-3-Pro-Image-4K").2 (by decide) (by decide)).2⟩

/-! ## Signature cache (src/unnamed/part_000)

One JSON file per base-model key, holding an ordered history (most recent
last) of `{signature, content}` entries, capacity 3.  The file system is
modelled as an association list from model key to history; a missing or
unreadable file reads as the empty history, exactly as `readModelCache`
treats it. -/

structure SigEntry where
  signature : String
  content : String
deriving Repr, DecidableEq

/-- The three cache-policy flags consulted by `shouldCacheSignature` plus the
reasoning-retention flag `cacheThinking`, from `config`. -/
structure SigConfig where
  cacheAllSignatures : Bool
  cacheToolSignatures : Bool
  cacheImageSignatures : Bool
  cacheThinking : Bool
deriving Repr, DecidableEq

/-- The `options` argument of `setSignature`: absent fields fall back with
`??` in the source. -/
structure SigOpts where
  hasTools : Option Bool
  isImageModel : Option Bool
deriving Repr, DecidableEq

abbrev SigStore := List (String × List SigEntry)

/-- The fixed resolution-suffix set of `makeModelKey`'s regex, lowercased. -/
def resSuffixes : List String := ["-1k", "-2k", "-4k", "-8k"]

def hasRes (s : String) : Bool :=
  resSuffixes.any (fun suf => strEndsWith (strLower s) suf)

/-- The regex replace in `makeModelKey` (line 40): strip one trailing
resolution suffix, case-insensitively (all suffixes have length 3). -/
def stripRes (s : String) : String :=
  if hasRes s then ⟨s.data.take (s.data.length - 3)⟩ else s

def badChars : List Char := ['<', '>', ':', '"', '/', '\\', '|', '?', '*']

def sanitizeChar (c : Char) : Char := if badChars.contains c then '_' else c

/-- `makeModelKey` (lines 35-43): `none` on a falsy model, else the base model
name (resolution suffix stripped) with filesystem-unsafe characters replaced
by underscores. -/
def makeModelKey (model : String) : Option String :=
  if model = "" then none
  else some ⟨(stripRes model).data.map sanitizeChar⟩

/-- `readModelCache` (lines 59-72): missing/unreadable file reads as `[]`. -/
def readModelCache (st : SigStore) (modelKey : String) : List SigEntry :=
  (alookup st modelKey).getD []

/-- Signature of the current tail of a history, used for de-duplication. -/
def lastSig (sigs : List SigEntry) : Option String :=
  (sigs.getLast?).map SigEntry.signature

/-- `pushEntry` (lines 115-134): no-op on falsy key or signature; no-op when
the new signature equals the current tail's; otherwise append and evict from
the front down to capacity 3. -/
def pushEntry (st : SigStore) (modelKey : Option String) (entry : SigEntry) :
    SigStore :=
  match modelKey with
  | none => st
  | some k =>
    if entry.signature = "" then st
    else
      let signatures := readModelCache st k
      if lastSig signatures = some entry.signature then st
      else
        let pushed := signatures ++ [entry]
        aset st k (pushed.drop (pushed.length - 3))

/-- `shouldCacheSignature` (lines 143-154). -/
def shouldCacheSignature (cfg : SigConfig) (hasTools isImage : Bool) : Bool :=
  cfg.cacheAllSignatures || (cfg.cacheToolSignatures && hasTools) ||
    (cfg.cacheImageSignatures && isImage)

/-- `isImageModel` (lines 161-166). -/
def isImageModel (model : String) : Bool :=
  if model = "" then false else strHas (strLower model) "image"

/-- `processThinkingContent` (lines 173-178): single-space placeholder when
`cacheThinking` is off or the content is falsy. -/
def processThinkingContent (cfg : SigConfig) (content : String) : String :=
  if cfg.cacheThinking = false then " "
  else if content = "" then " " else content

/-- `setSignature` (lines 190-203).  `sessionId` is kept for call-site
compatibility and does not participate in the cache key. -/
def setSignature (cfg : SigConfig) (st : SigStore)
    (sessionId model sig content : String) (options : SigOpts) : SigStore :=
  if sig = "" ∨ model = "" then st
  else
    let isImage := options.isImageModel.getD (isImageModel model)
    let hasTools := options.hasTools.getD false
    if shouldCacheSignature cfg hasTools isImage = false then st
    else pushEntry st (makeModelKey model) ⟨sig, processThinkingContent cfg content⟩

/-- `getLatestEntry` (lines 101-108). -/
def getLatestEntry (st : SigStore) (modelKey : Option String) : Option SigEntry :=
  match modelKey with
  | none => none
  | some k => (readModelCache st k).getLast?

/-- `getSignature` (lines 213-224): most recent entry for the base model, with
content policy-gated by `cacheThinking` at read time. -/
def getSignature (cfg : SigConfig) (st : SigStore) (sessionId model : String)
    (options : SigOpts) : Option SigEntry :=
  if model = "" then none
  else
    match getLatestEntry st (makeModelKey model) with
    | none => none
    | some entry =>
      some ⟨entry.signature, if cfg.cacheThinking then entry.content else " "⟩

/-- Claim C5: per base model, a push keeps the history length at most 3; a
push whose signature equals the current tail's is a complete no-op; a push of
a distinct signature onto a full history of 3 evicts the oldest entry,
leaving the previous two followed by the new entry. -/
theorem pushEntry_bounded (st : SigStore) (k : String) (e : SigEntry)
    (hsig : e.signature ≠ "") :
    ((readModelCache st k).length ≤ 3 →
      (readModelCache (pushEntry st (some k) e) k).length ≤ 3) ∧
    (lastSig (readModelCache st k) = some e.signature →
      pushEntry st (some k) e = st) ∧
    ((readModelCache st k).length = 3 →
      lastSig (readModelCache st k) ≠ some e.signature →
      readModelCache (pushEntry st (some k) e) k =
        (readModelCache st k).tail ++ [e]) := by
  refine ⟨?_, ?_, ?_⟩
  · intro hlen
    by_cases hdup : lastSig (readModelCache st k) = some e.signature
    · simp [pushEntry, hsig, hdup, hlen]
    · have hdup' : ¬ lastSig ((alookup st k).getD []) = some e.signature := by
        simpa [readModelCache] using hdup
      have : readModelCache (pushEntry st (some k) e) k =
          ((readModelCache st k ++ [e]).drop ((readModelCache st k ++ [e]).length - 3)) := by
        simp [pushEntry, hsig, hdup', readModelCache, alookup_aset_self]
      rw [this, List.length_drop]
      simp
      omega
  · intro hdup
    simp [pushEntry, hsig, hdup]
  · intro hlen hdup
    have hdup' : ¬ lastSig ((alookup st k).getD []) = some e.signature := by
      simpa [readModelCache] using hdup
    have hres : readModelCache (pushEntry st (some k) e) k =
        ((readModelCache st k ++ [e]).drop ((readModelCache st k ++ [e]).length - 3)) := by
      simp [pushEntry, hsig, hdup', readModelCache, alookup_aset_self]
    rw [hres]
    have : (readModelCache st k ++ [e]).length - 3 = 1 := by
      simp [hlen]
    rw [this, List.drop_append_of_le_length (by omega), List.drop_one]

theorem pushEntry_bounded_witness :
    ((readModelCache [("m", [⟨"s1", " "⟩, ⟨"s2", " "⟩, ⟨"s3", " "⟩])] "m").length ≤ 3 →
      (readModelCache (pushEntry [("m", [⟨"s1", " "⟩, ⟨"s2", " "⟩, ⟨"s3", " "⟩])]
        (some "m") ⟨"s4", "c"⟩) "m").length ≤ 3) ∧
    (lastSig (readModelCache [("m", [⟨"s1", " "⟩, ⟨"s2", " "⟩, ⟨"s3", " "⟩])] "m") =
        some "s4" → pushEntry [("m", [⟨"s1", " "⟩, ⟨"s2", " "⟩, ⟨"s3", " "⟩])]
        (some "m") ⟨"s4", "c"⟩ = [("m", [⟨"s1", " "⟩, ⟨"s2", " "⟩, ⟨"s3", " "⟩])]) ∧
    ((readModelCache [("m", [⟨"s1", " "⟩, ⟨"s2", " "⟩, ⟨"s3", " "⟩])] "m").length = 3 →
      lastSig (readModelCache [("m", [⟨"s1", " "⟩, ⟨"s2", " "⟩, ⟨"s3", " "⟩])] "m") ≠
        some "s4" →
      readModelCache (pushEntry [("m", [⟨"s1", " "⟩, ⟨"s2", " "⟩, ⟨"s3", " "⟩])]
        (some "m") ⟨"s4", "c"⟩) "m" =
        (readModelCache [("m", [⟨"s1", " "⟩, ⟨"s2", " "⟩, ⟨"s3", " "⟩])] "m").tail ++
          [⟨"s4", "c"⟩]) :=
  pushEntry_bounded [("m", [⟨"s1", " "⟩, ⟨"s2", " "⟩, ⟨"s3", " "⟩])] "m" ⟨"s4", "c"⟩
    (by decide)

/-- Claim C6: `getSignature` returns the stored entry's signature unchanged,
and its content is gated by the `cacheThinking` policy at read time: the
placeholder `" "` whenever the policy is off, the stored content only when it
is on.  The second conjunct shows that when the policy is on at write time a
nonempty content is stored verbatim, so an entry stored under policy-on is
still read back as the placeholder once the policy is off. -/
theorem getSignature_policy_gated (cfg cfgW : SigConfig) (st : SigStore)
    (sid model c : String) (options : SigOpts) (e : SigEntry) (hm : model ≠ "")
    (he : getLatestEntry st (makeModelKey model) = some e)
    (hW : cfgW.cacheThinking = true) (hc : c ≠ "") :
    getSignature cfg st sid model options =
      some ⟨e.signature, if cfg.cacheThinking then e.content else " "⟩ ∧
    processThinkingContent cfgW c = c := by
  constructor
  · simp [getSignature, hm, he]
  · simp [processThinkingContent, hW, hc]

theorem getSignature_policy_gated_witness :
    getSignature ⟨true, false, false, false⟩ [("m", [⟨"sig1", "thought"⟩])]
        "sess" "m" ⟨none, none⟩ =
      some ⟨"sig1", if (false : Bool) then "thought" else " "⟩ ∧
    processThinkingContent ⟨true, false, false, true⟩ "thought" = "thought" :=
  getSignature_policy_gated ⟨true, false, false, false⟩
    ⟨true, false, false, true⟩ [("m", [⟨"sig1", "thought"⟩])]
    "sess" "m" "thought" ⟨none, none⟩ ⟨"sig1", "thought"⟩
    (by decide) (by decide) rfl (by decide)

/-- Claim C9: the `sessionId` argument of `setSignature` and `getSignature`
has no effect: with any two session ids and otherwise identical arguments and
cache state, `setSignature` produces identical cache state and `getSignature`
returns identical results. -/
theorem signature_cache_ignores_session (cfg : SigConfig) (st : SigStore)
    (sid1 sid2 model sig content : String) (options : SigOpts) :
    setSignature cfg st sid1 model sig content options =
      setSignature cfg st sid2 model sig content options ∧
    getSignature cfg st sid1 model options =
      getSignature cfg st sid2 model options :=
  ⟨rfl, rfl⟩

/-! ### Resolution-suffix normalization (claim C7) -/

/-- A string is one of the resolution suffixes, case-insensitively. -/
def isResSuffix (s : String) : Bool :=
  strLower s == "-1k" || strLower s == "-2k" || strLower s == "-4k" || strLower s == "-8k"

theorem charsStart_self_append (p r : List Char) : charsStart p (p ++ r) = true := by
  induction p with
  | nil => simp [charsStart]
  | cons a as ih => simp [charsStart, ih]

theorem strLower_data_length (s : String) : (strLower s).data.length = s.data.length := by
  simp [strLower]

theorem hasRes_of_endsWith (s pat : String) (hmem : pat ∈ resSuffixes)
    (h : strEndsWith (strLower s) pat = true) : hasRes s = true := by
  simp only [hasRes, List.any_eq_true]
  exact ⟨pat, hmem, h⟩

theorem makeModelKey_strips_suffix (base suf : String) (hb : base ≠ "")
    (hnores : hasRes base = false) (hsuf : isResSuffix suf = true) :
    makeModelKey (base ++ suf) = makeModelKey base := by
  have hpat : ∃ pat : String, pat ∈ resSuffixes ∧ strLower suf = pat ∧
      pat.data.length = 3 := by
    simp only [isResSuffix, Bool.or_eq_true, beq_iff_eq] at hsuf
    rcases hsuf with ((h | h) | h) | h
    · exact ⟨"-1k", by decide, h, by decide⟩
    · exact ⟨"-2k", by decide, h, by decide⟩
    · exact ⟨"-4k", by decide, h, by decide⟩
    · exact ⟨"-8k", by decide, h, by decide⟩
  obtain ⟨pat, hmem, hls, hlen⟩ := hpat
  have hsl : suf.data.length = 3 := by
    have h1 := strLower_data_length suf
    rw [hls] at h1
    omega
  have hdata : (strLower (base ++ suf)).data = (strLower base).data ++ pat.data := by
    rw [← hls]
    simp [strLower, String.data_append]
  have hends : strEndsWith (strLower (base ++ suf)) pat = true := by
    unfold strEndsWith
    rw [hdata, List.reverse_append]
    exact charsStart_self_append _ _
  have hhr : hasRes (base ++ suf) = true := hasRes_of_endsWith _ _ hmem hends
  have hne : base ++ suf ≠ "" := by
    intro h
    have h2 : (base ++ suf).data = [] := by rw [h]
    rw [String.data_append] at h2
    have h3 := congrArg List.length h2
    simp [hsl] at h3
  have hstrip : (stripRes (base ++ suf)).data = base.data := by
    simp only [stripRes, hhr, if_true]
    rw [String.data_append]
    show (base.data ++ suf.data).take ((base.data ++ suf.data).length - 3) = base.data
    have h1 : (base.data ++ suf.data).length - 3 = base.data.length := by
      simp [hsl]
    rw [h1, List.take_left]
  have hstrip2 : stripRes base = base := by
    simp [stripRes, hnores]
  simp only [makeModelKey, hne, hb, if_neg, ite_false]
  rw [hstrip, hstrip2]

/-- Claim C7: model identifiers carrying a trailing resolution suffix from the
fixed set (-1K, -2K, -4K, -8K, case-insensitive) are cached under the base model
name with that suffix stripped, so resolution variants share one history; in
particular pushing s1..s4 for `gemini-3-pro-image-4K` stores under base model
`gemini-3-pro-image` with history [s2, s3, s4]. -/
theorem makeModelKey_resolution_variants :
    (∀ base suf : String, base ≠ "" → hasRes base = false → isResSuffix suf = true →
      makeModelKey (base ++ suf) = makeModelKey base) ∧
    (setSignature ⟨true, false, false, true⟩
      (setSignature ⟨true, false, false, true⟩
        (setSignature ⟨true, false, false, true⟩
          (setSignature ⟨true, false, false, true⟩ []
            "sess" "gemini-3-pro-image-4K" "s1" "c1" ⟨none, none⟩)
          "sess" "gemini-3-pro-image-4K" "s2" "c2" ⟨none, none⟩)
        "sess" "gemini-3-pro-image-4K" "s3" "c3" ⟨none, none⟩)
      "sess" "gemini-3-pro-image-4K" "s4" "c4" ⟨none, none⟩) =
      [("gemini-3-pro-image", [⟨"s2", "c2"⟩, ⟨"s3", "c3"⟩, ⟨"s4", "c4"⟩])] :=
  ⟨makeModelKey_strips_suffix, by decide⟩

theorem makeModelKey_resolution_variants_witness :
    makeModelKey ("gemini-3-pro-image" ++ "-4K") = makeModelKey "gemini-3-pro-image" :=
  makeModelKey_resolution_variants.1 "gemini-3-pro-image" "-4K"
    (by decide) (by decide) (by decide)

/-! ## TokenStore (src/unnamed/part_001)

Credential records are JS objects, modelled as association lists from field
name to field value.  The persisted document is `FileContent`; I/O outcomes
(directory/file creation, read, write, and the `generateSalt` random values)
are supplied by an `FsEnv` environment, so a claim quantifying over I/O
failures quantifies over environments.  Each operation returns its outcome
(`Except Unit` mirrors a JS throw) together with the post-state, which is
retained even when the operation throws. -/

abbrev JsObj := List (String × String)

def objLookup (o : JsObj) (k : String) : Option String := alookup o k

/-- JS rest destructuring: the object without the named field. -/
def objRemove (o : JsObj) (k : String) : JsObj :=
  o.filter (fun p => p.1 != k)

/-- JS object spread of `b` over `a`: fields of `a` in order with values
overridden by `b` where shared, then fields of `b` absent from `a`. -/
def objMergeKV (a b : JsObj) : JsObj :=
  a.map (fun p => (p.1, (objLookup b p.1).getD p.2)) ++
    b.filter (fun p => (objLookup a p.1).isNone)

/-- The `applyUpdate` closure of `mergeActiveTokens` (lines 164-171):
`findIndex` on `refresh_token` plus in-place assignment, i.e. replace the
first record whose `refresh_token` matches with the shallow merge of the
active record (minus `sessionId`) over it; no match changes nothing. -/
def applyUpdate (t : JsObj) : List JsObj → List JsObj
  | [] => []
  | r :: rest =>
    if objLookup r "refresh_token" = objLookup t "refresh_token" then
      objMergeKV r (objRemove t "sessionId") :: rest
    else r :: applyUpdate t rest

/-- The update loop of `mergeActiveTokens` (lines 173-179): a provided single
token wins, else every active token is applied in order. -/
def applyUpdates (allTokens activeTokens : List JsObj)
    (tokenToUpdate : Option JsObj) : List JsObj :=
  match tokenToUpdate with
  | some t => applyUpdate t allTokens
  | none => activeTokens.foldl (fun acc t => applyUpdate t acc) allTokens

/-- Shapes the persisted accounts file can be in: missing, unparseable JSON,
a legacy bare array, or the current document (a falsy `salt` field is the
empty string; a missing or non-array `tokens` field is `none`). -/
inductive FileContent where
  | absent : FileContent
  | malformed : FileContent
  | legacyArr : List JsObj → FileContent
  | doc : String → Option (List JsObj) → FileContent
deriving Repr, DecidableEq

/-- The token list carried by the persisted document, if any. -/
def fileTokens : FileContent → Option (List JsObj)
  | .doc _ t => t
  | .legacyArr t => some t
  | _ => none

/-- I/O outcomes for one operation: whether creating the missing file, a
read, or a write succeeds, and the values produced by successive
`generateSalt` calls (`fresh1` during file creation, `fresh2` during
migration or salt back-fill, `fresh3` in the error-recovery path). -/
structure FsEnv where
  createOk : Bool
  readOk : Bool
  writeOk : Bool
  fresh1 : String
  fresh2 : String
  fresh3 : String
deriving Repr, DecidableEq

/-- The mutable fields of a `TokenStore` instance plus the backing file. -/
structure StoreState where
  file : FileContent
  cacheTokens : Option (List JsObj)
  cacheTime : Nat
  cacheTTL : Nat
  saltMem : Option String
deriving Repr, DecidableEq

/-- `_ensureFileExists` (lines 29-48): create the document with a fresh salt
and empty token list when missing; the creating write is the one statement of
the method not guarded by its own try, so its failure throws. -/
def ensureFile (st : StoreState) (env : FsEnv) : Except Unit Unit × StoreState :=
  match st.file with
  | .absent =>
    if env.createOk then (.ok (), { st with file := .doc env.fresh1 (some []) })
    else (.error (), st)
  | _ => (.ok (), st)

/-- The `if (this._salt) return this._salt` fast path: a cached empty string
is falsy and does not hit. -/
def saltHit (st : StoreState) : Option String :=
  match st.saltMem with
  | some s => if s = "" then none else some s
  | none => none

def setSaltMem (st : StoreState) (s : String) : StoreState :=
  { st with saltMem := some s }

/-- `getSalt` (lines 54-90): cached value if truthy; else read the document,
migrating a legacy array or back-filling a missing salt (persisting either
way), caching and returning the salt; any failure inside the try is recovered
by caching and returning a freshly generated temporary salt. -/
def getSalt (st : StoreState) (env : FsEnv) : Except Unit String × StoreState :=
  match saltHit st with
  | some s => (.ok s, st)
  | none =>
    match ensureFile st env with
    | (.error e, st1) => (.error e, st1)
    | (.ok _, st1) =>
      if env.readOk = false then
        (.ok env.fresh3, setSaltMem st1 env.fresh3)
      else
        match st1.file with
        | .absent => (.ok env.fresh3, setSaltMem st1 env.fresh3)
        | .malformed => (.ok env.fresh3, setSaltMem st1 env.fresh3)
        | .legacyArr ts =>
          if env.writeOk then
            (.ok env.fresh2,
              { st1 with file := .doc env.fresh2 (some ts),
                         saltMem := some env.fresh2 })
          else (.ok env.fresh3, setSaltMem st1 env.fresh3)
        | .doc salt toks =>
          if salt = "" then
            if env.writeOk then
              (.ok env.fresh2,
                { st1 with file := .doc env.fresh2 (some (toks.getD [])),
                           saltMem := some env.fresh2 })
            else (.ok env.fresh3, setSaltMem st1 env.fresh3)
          else (.ok salt, setSaltMem st1 salt)

/-- `_isCacheValid` (lines 92-96). -/
def cacheValid (st : StoreState) (now : Nat) : Bool :=
  st.cacheTokens.isSome && (now - st.cacheTime < st.cacheTTL)

/-- `readAll` (lines 102-127): cache hit returns the cache; otherwise read,
treating a missing file (just created empty), malformed JSON, or a wrong
document shape as the empty list, caching whatever was produced. -/
def readAll (st : StoreState) (env : FsEnv) (now : Nat) :
    Except Unit (List JsObj) × StoreState :=
  if cacheValid st now then (.ok (st.cacheTokens.getD []), st)
  else
    match ensureFile st env with
    | (.error e, st1) => (.error e, st1)
    | (.ok _, st1) =>
      let fin : List JsObj → Except Unit (List JsObj) × StoreState := fun c =>
        (.ok c, { st1 with cacheTokens := some c, cacheTime := now })
      if env.readOk = false then fin []
      else
        match st1.file with
        | .absent => fin []
        | .malformed => fin []
        | .legacyArr ts => fin ts
        | .doc _ toks => fin (toks.getD [])

/-- `writeAll` (lines 133-152): attach the current salt, persist the document,
refresh the cache; a persistence failure is rethrown. -/
def writeAll (st : StoreState) (tokens : List JsObj) (env : FsEnv) (now : Nat) :
    Except Unit Unit × StoreState :=
  match ensureFile st env with
  | (.error e, st1) => (.error e, st1)
  | (.ok _, st1) =>
    match getSalt st1 env with
    | (.error e, st2) => (.error e, st2)
    | (.ok salt, st2) =>
      if env.writeOk then
        (.ok (), { st2 with file := .doc salt (some tokens),
                            cacheTokens := some tokens, cacheTime := now })
      else (.error (), st2)

/-- `mergeActiveTokens` (lines 161-182): read-modify-write of the full set. -/
def mergeActiveTokens (st : StoreState) (activeTokens : List JsObj)
    (tokenToUpdate : Option JsObj) (env : FsEnv) (now : Nat) :
    Except Unit Unit × StoreState :=
  match readAll st env now with
  | (.error e, st1) => (.error e, st1)
  | (.ok allTokens, st1) =>
    writeAll st1 (applyUpdates allTokens activeTokens tokenToUpdate) env now

/-- One public `TokenStore` call, for quantifying over interleavings. -/
inductive StoreOp where
  | saltOp : FsEnv → StoreOp
  | readOp : FsEnv → Nat → StoreOp
  | writeOp : List JsObj → FsEnv → Nat → StoreOp
  | mergeOp : List JsObj → Option JsObj → FsEnv → Nat → StoreOp

def stepOp (st : StoreState) : StoreOp → StoreState
  | .saltOp env => (getSalt st env).2
  | .readOp env now => (readAll st env now).2
  | .writeOp toks env now => (writeAll st toks env now).2
  | .mergeOp act single env now => (mergeActiveTokens st act single env now).2

def runOps (st : StoreState) : List StoreOp → StoreState
  | [] => st
  | op :: ops => runOps (stepOp st op) ops

/-! ### Salt stability (claim C3) -/

theorem ensureFile_saltMem (st : StoreState) (env : FsEnv) :
    (ensureFile st env).2.saltMem = st.saltMem := by
  unfold ensureFile
  split
  · split <;> rfl
  · rfl

theorem getSalt_sets_saltMem (st : StoreState) (env : FsEnv) (s : String)
    (st' : StoreState) (h : getSalt st env = (Except.ok s, st')) :
    st'.saltMem = some s := by
  unfold getSalt at h
  cases hsh : saltHit st with
  | some s0 =>
    rw [hsh] at h
    simp only [Prod.mk.injEq, Except.ok.injEq] at h
    obtain ⟨rfl, rfl⟩ := h
    unfold saltHit at hsh
    cases hmem : st.saltMem with
    | none => rw [hmem] at hsh; simp at hsh
    | some t =>
      rw [hmem] at hsh
      by_cases ht : t = ""
      · simp [ht] at hsh
      · simp [ht] at hsh
        rw [hsh]
  | none =>
    rw [hsh] at h
    cases hens : ensureFile st env with
    | mk res st1 =>
      rw [hens] at h
      cases res with
      | error e => simp at h
      | ok _ =>
        dsimp only at h
        cases hro : env.readOk <;> rw [hro] at h
        · rw [if_pos rfl] at h
          simp only [Prod.mk.injEq, Except.ok.injEq] at h
          obtain ⟨rfl, rfl⟩ := h
          rfl
        · rw [if_neg (by decide)] at h
          cases hf : st1.file with
          | absent =>
            rw [hf] at h
            dsimp only at h
            simp only [Prod.mk.injEq, Except.ok.injEq] at h
            obtain ⟨rfl, rfl⟩ := h
            rfl
          | malformed =>
            rw [hf] at h
            dsimp only at h
            simp only [Prod.mk.injEq, Except.ok.injEq] at h
            obtain ⟨rfl, rfl⟩ := h
            rfl
          | legacyArr ts =>
            rw [hf] at h
            dsimp only at h
            cases hw : env.writeOk <;> rw [hw] at h
            · rw [if_neg (by decide)] at h
              simp only [Prod.mk.injEq, Except.ok.injEq] at h
              obtain ⟨rfl, rfl⟩ := h
              rfl
            · rw [if_pos rfl] at h
              simp only [Prod.mk.injEq, Except.ok.injEq] at h
              obtain ⟨rfl, rfl⟩ := h
              rfl
          | doc salt toks =>
            rw [hf] at h
            dsimp only at h
            by_cases hsalt : salt = ""
            · rw [if_pos hsalt] at h
              cases hw : env.writeOk <;> rw [hw] at h
              · rw [if_neg (by decide)] at h
                simp only [Prod.mk.injEq, Except.ok.injEq] at h
                obtain ⟨rfl, rfl⟩ := h
                rfl
              · rw [if_pos rfl] at h
                simp only [Prod.mk.injEq, Except.ok.injEq] at h
                obtain ⟨rfl, rfl⟩ := h
                rfl
            · rw [if_neg hsalt] at h
              simp only [Prod.mk.injEq, Except.ok.injEq] at h
              obtain ⟨rfl, rfl⟩ := h
              rfl

theorem getSalt_hit (st : StoreState) (env : FsEnv) (s : String)
    (h : st.saltMem = some s) (hs : s ≠ "") :
    getSalt st env = (Except.ok s, st) := by
  have hh : saltHit st = some s := by
    unfold saltHit
    rw [h]
    simp [hs]
  unfold getSalt
  rw [hh]

theorem readAll_saltMem (st : StoreState) (env : FsEnv) (now : Nat) :
    (readAll st env now).2.saltMem = st.saltMem := by
  unfold readAll
  by_cases hc : cacheValid st now = true
  · rw [if_pos hc]
  · rw [if_neg hc]
    cases hens : ensureFile st env with
    | mk res st1 =>
      have h1 : st1.saltMem = st.saltMem := by
        have := ensureFile_saltMem st env
        rw [hens] at this
        exact this
      cases res with
      | error e => exact h1
      | ok _ =>
        dsimp only
        cases hro : env.readOk
        · rw [if_pos rfl]
          exact h1
        · rw [if_neg (by decide)]
          cases hf : st1.file <;> exact h1

theorem writeAll_keeps_salt (st : StoreState) (toks : List JsObj) (env : FsEnv)
    (now : Nat) (s : String) (h : st.saltMem = some s) (hs : s ≠ "") :
    (writeAll st toks env now).2.saltMem = some s ∧
    (env.createOk = true → env.writeOk = true →
      (writeAll st toks env now).1 = Except.ok () ∧
      (writeAll st toks env now).2.file = FileContent.doc s (some toks)) := by
  unfold writeAll
  cases hens : ensureFile st env with
  | mk res st1 =>
    have h1 : st1.saltMem = some s := by
      have := ensureFile_saltMem st env
      rw [hens] at this
      rw [this, h]
    cases res with
    | error e =>
      dsimp only
      refine ⟨h1, ?_⟩
      intro hco hw
      exfalso
      unfold ensureFile at hens
      cases hf : st.file <;> rw [hf] at hens <;> dsimp only at hens
      · rw [if_pos (by rw [hco])] at hens
        exact absurd hens (by simp)
      all_goals exact absurd hens (by simp)
    | ok _ =>
      dsimp only
      rw [getSalt_hit st1 env s h1 hs]
      dsimp only
      cases hw : env.writeOk
      · rw [if_neg (by decide)]
        refine ⟨h1, ?_⟩
        intro _ hcontra
        exact absurd hcontra (by decide)
      · rw [if_pos rfl]
        exact ⟨h1, fun _ _ => ⟨rfl, rfl⟩⟩

theorem stepOp_keeps_salt (st : StoreState) (op : StoreOp) (s : String)
    (h : st.saltMem = some s) (hs : s ≠ "") : (stepOp st op).saltMem = some s := by
  cases op with
  | saltOp env =>
    show (getSalt st env).2.saltMem = some s
    rw [getSalt_hit st env s h hs]
    exact h
  | readOp env now =>
    show (readAll st env now).2.saltMem = some s
    rw [readAll_saltMem, h]
  | writeOp toks env now =>
    exact (writeAll_keeps_salt st toks env now s h hs).1
  | mergeOp act single env now =>
    show (mergeActiveTokens st act single env now).2.saltMem = some s
    unfold mergeActiveTokens
    cases hra : readAll st env now with
    | mk res st1 =>
      have h1 : st1.saltMem = some s := by
        have := readAll_saltMem st env now
        rw [hra] at this
        rw [this, h]
      cases res with
      | error e => exact h1
      | ok allTokens =>
        dsimp only
        exact (writeAll_keeps_salt st1 _ env now s h1 hs).1

theorem runOps_keeps_salt (ops : List StoreOp) (st : StoreState) (s : String)
    (h : st.saltMem = some s) (hs : s ≠ "") : (runOps st ops).saltMem = some s := by
  induction ops generalizing st with
  | nil => exact h
  | cons op rest ih => exact ih (stepOp st op) (stepOp_keeps_salt st op s h hs)

/-- Claim C3: the installation salt is fixed from the first successful
`getSalt` on: whatever sequence of `getSalt`, `readAll`, `writeAll` and
`mergeActiveTokens` calls follows, under any I/O outcomes, the cached salt
stays that first value, a later `getSalt` returns it without touching the
state, and a succeeding `writeAll` attaches exactly it to the persisted
document.  (`generateSalt`, external to the store, returns nonempty random
hex, whence the nonemptiness hypothesis on the returned salt.) -/
theorem salt_generated_once (st : StoreState) (env : FsEnv) (s : String)
    (st' : StoreState) (h : getSalt st env = (Except.ok s, st')) (hs : s ≠ "")
    (ops : List StoreOp) (env2 : FsEnv) (toks : List JsObj) (now : Nat)
    (hco : env2.createOk = true) (hw : env2.writeOk = true) :
    (runOps st' ops).saltMem = some s ∧
    getSalt (runOps st' ops) env2 = (Except.ok s, runOps st' ops) ∧
    (writeAll (runOps st' ops) toks env2 now).1 = Except.ok () ∧
    (writeAll (runOps st' ops) toks env2 now).2.file =
      FileContent.doc s (some toks) := by
  have h0 : st'.saltMem = some s := getSalt_sets_saltMem st env s st' h
  have hrun : (runOps st' ops).saltMem = some s := runOps_keeps_salt ops st' s h0 hs
  have hwr := writeAll_keeps_salt (runOps st' ops) toks env2 now s hrun hs
  exact ⟨hrun, getSalt_hit _ env2 s hrun hs, (hwr.2 hco hw).1, (hwr.2 hco hw).2⟩

theorem salt_generated_once_witness :
    (runOps ⟨FileContent.doc "abc" (some []), none, 0, 5, some "abc"⟩
        [StoreOp.readOp ⟨true, true, true, "f1", "f2", "f3"⟩ 1]).saltMem =
      some "abc" ∧
    getSalt (runOps ⟨FileContent.doc "abc" (some []), none, 0, 5, some "abc"⟩
        [StoreOp.readOp ⟨true, true, true, "f1", "f2", "f3"⟩ 1])
        ⟨true, true, true, "f1", "f2", "f3"⟩ =
      (Except.ok "abc",
        runOps ⟨FileContent.doc "abc" (some []), none, 0, 5, some "abc"⟩
          [StoreOp.readOp ⟨true, true, true, "f1", "f2", "f3"⟩ 1]) ∧
    (writeAll (runOps ⟨FileContent.doc "abc" (some []), none, 0, 5, some "abc"⟩
        [StoreOp.readOp ⟨true, true, true, "f1", "f2", "f3"⟩ 1])
        [[("refresh_token", "rt")]] ⟨true, true, true, "f1", "f2", "f3"⟩ 2).1 =
      Except.ok () ∧
    (writeAll (runOps ⟨FileContent.doc "abc" (some []), none, 0, 5, some "abc"⟩
        [StoreOp.readOp ⟨true, true, true, "f1", "f2", "f3"⟩ 1])
        [[("refresh_token", "rt")]] ⟨true, true, true, "f1", "f2", "f3"⟩ 2).2.file =
      FileContent.doc "abc" (some [[("refresh_token", "rt")]]) :=
  salt_generated_once ⟨FileContent.doc "abc" (some []), none, 0, 5, none⟩
    ⟨true, true, true, "f1", "f2", "f3"⟩ "abc"
    ⟨FileContent.doc "abc" (some []), none, 0, 5, some "abc"⟩ rfl (by decide)
    [StoreOp.readOp ⟨true, true, true, "f1", "f2", "f3"⟩ 1]
    ⟨true, true, true, "f1", "f2", "f3"⟩ [[("refresh_token", "rt")]] 2 rfl rfl

/-! ### Error asymmetry (claim C8) -/

theorem getSalt_no_error (st : StoreState) (env : FsEnv)
    (hfile : st.file ≠ FileContent.absent) :
    ∃ s stX, getSalt st env = (Except.ok s, stX) := by
  unfold getSalt
  cases hsh : saltHit st with
  | some s => exact ⟨s, st, rfl⟩
  | none =>
    have hens : ensureFile st env = (.ok (), st) := by
      unfold ensureFile
      cases hf : st.file
      · exact absurd hf hfile
      all_goals rfl
    rw [hens]
    dsimp only
    cases hro : env.readOk
    · rw [if_pos rfl]
      exact ⟨_, _, rfl⟩
    · rw [if_neg (by decide)]
      cases hf : st.file with
      | absent => exact absurd hf hfile
      | malformed => exact ⟨_, _, rfl⟩
      | legacyArr ts =>
        dsimp only
        cases hw : env.writeOk
        · rw [if_neg (by decide)]
          exact ⟨_, _, rfl⟩
        · rw [if_pos rfl]
          exact ⟨_, _, rfl⟩
      | doc salt toks =>
        dsimp only
        by_cases hsalt : salt = ""
        · rw [if_pos hsalt]
          cases hw : env.writeOk
          · rw [if_neg (by decide)]
            exact ⟨_, _, rfl⟩
          · rw [if_pos rfl]
            exact ⟨_, _, rfl⟩
        · rw [if_neg hsalt]
          exact ⟨_, _, rfl⟩

/-- Claim C8: error handling is asymmetric.  A `readAll` that faces a missing
file, malformed JSON, or a wrong-shaped document (no token array), with the
initialization write able to create a missing file, returns the empty list
and does not throw — under any read outcome.  A `writeAll` whose persisting
write fails (on an existing file) rethrows the failure to the caller. -/
theorem read_write_error_asymmetry (st st2 : StoreState) (env env2 : FsEnv)
    (now now2 : Nat) (toks : List JsObj)
    (hcache : cacheValid st now = false) (hco : env.createOk = true)
    (hshape : fileTokens st.file = none)
    (hfile2 : st2.file ≠ FileContent.absent) (hw2 : env2.writeOk = false) :
    (readAll st env now).1 = Except.ok [] ∧
    (writeAll st2 toks env2 now2).1 = Except.error () := by
  constructor
  · unfold readAll
    rw [hcache, if_neg (by decide)]
    cases hf : st.file with
    | absent =>
      have hens : ensureFile st env =
          (.ok (), { st with file := .doc env.fresh1 (some []) }) := by
        unfold ensureFile
        rw [hf]
        dsimp only
        rw [if_pos hco]
      rw [hens]
      dsimp only
      cases hro : env.readOk
      · rw [if_pos rfl]
      · rw [if_neg (by decide)]
        rfl
    | malformed =>
      have hens : ensureFile st env = (.ok (), st) := by
        unfold ensureFile
        rw [hf]
      rw [hens]
      dsimp only
      cases hro : env.readOk
      · rw [if_pos rfl]
      · rw [if_neg (by decide), hf]
    | legacyArr ts =>
      rw [hf] at hshape
      simp [fileTokens] at hshape
    | doc salt dtoks =>
      rw [hf] at hshape
      simp only [fileTokens] at hshape
      subst hshape
      have hens : ensureFile st env = (.ok (), st) := by
        unfold ensureFile
        rw [hf]
      rw [hens]
      dsimp only
      cases hro : env.readOk
      · rw [if_pos rfl]
      · rw [if_neg (by decide), hf]
        rfl
  · have hens2 : ensureFile st2 env2 = (.ok (), st2) := by
      unfold ensureFile
      cases hf : st2.file
      · exact absurd hf hfile2
      all_goals rfl
    unfold writeAll
    rw [hens2]
    dsimp only
    obtain ⟨s, stX, hgs⟩ := getSalt_no_error st2 env2 hfile2
    rw [hgs]
    dsimp only
    rw [hw2, if_neg (by decide)]

theorem read_write_error_asymmetry_witness :
    (readAll ⟨FileContent.malformed, none, 0, 5, none⟩
      ⟨true, true, true, "a", "b", "c"⟩ 1).1 = Except.ok [] ∧
    (writeAll ⟨FileContent.doc "s" (some []), none, 0, 5, none⟩
      [[("refresh_token", "rt")]] ⟨true, true, false, "a", "b", "c"⟩ 1).1 =
      Except.error () :=
  read_write_error_asymmetry ⟨FileContent.malformed, none, 0, 5, none⟩
    ⟨FileContent.doc "s" (some []), none, 0, 5, none⟩
    ⟨true, true, true, "a", "b", "c"⟩ ⟨true, true, false, "a", "b", "c"⟩
    1 1 [[("refresh_token", "rt")]] rfl rfl rfl (by decide) rfl

/-! ### Merge lemmas (claims C4, C10) -/

theorem alookup_append {α : Type} (l1 l2 : List (String × α)) (k : String) :
    alookup (l1 ++ l2) k = (alookup l1 k).or (alookup l2 k) := by
  induction l1 with
  | nil => simp [alookup]
  | cons p rest ih =>
    obtain ⟨k1, v1⟩ := p
    by_cases h : k1 = k <;> simp [alookup, h, ih]

theorem alookup_merge_mapped (a b : JsObj) (k : String) :
    alookup (a.map (fun p => (p.1, (objLookup b p.1).getD p.2))) k =
      (alookup a k).map (fun v => (objLookup b k).getD v) := by
  induction a with
  | nil => simp [alookup]
  | cons p rest ih =>
    obtain ⟨k1, v1⟩ := p
    by_cases h : k1 = k
    · subst h
      simp [alookup]
    · simp [alookup, h, ih]

theorem alookup_filter_pass {α : Type} (l : List (String × α))
    (q : String × α → Bool) (k : String) (hq : ∀ v, q (k, v) = true) :
    alookup (l.filter q) k = alookup l k := by
  induction l with
  | nil => simp [alookup]
  | cons p rest ih =>
    obtain ⟨k1, v1⟩ := p
    by_cases h : k1 = k
    · subst h
      rw [List.filter_cons, hq v1]
      simp [alookup]
    · rw [List.filter_cons]
      cases hq1 : q (k1, v1) <;> simp [alookup, h, ih]

theorem alookup_filter_none {α : Type} (l : List (String × α))
    (q : String × α → Bool) (k : String) (hq : ∀ v, q (k, v) = false) :
    alookup (l.filter q) k = none := by
  induction l with
  | nil => simp [alookup]
  | cons p rest ih =>
    obtain ⟨k1, v1⟩ := p
    by_cases h : k1 = k
    · subst h
      rw [List.filter_cons, hq v1]
      exact ih
    · rw [List.filter_cons]
      cases hq1 : q (k1, v1) <;> simp [alookup, h, ih]

theorem objRemove_lookup_ne (o : JsObj) (k k' : String) (h : k' ≠ k) :
    objLookup (objRemove o k) k' = objLookup o k' :=
  alookup_filter_pass o _ k' (fun v => by simp [h])

theorem objRemove_lookup_self (o : JsObj) (k : String) :
    objLookup (objRemove o k) k = none :=
  alookup_filter_none o _ k (fun v => by simp)

theorem objMergeKV_lookup (a b : JsObj) (k : String) :
    objLookup (objMergeKV a b) k = (objLookup b k).or (objLookup a k) := by
  show alookup _ k = _
  unfold objMergeKV
  rw [alookup_append, alookup_merge_mapped]
  cases ha : alookup a k with
  | some v =>
    show ((some v).map fun w => (objLookup b k).getD w).or _ = _
    cases hb : objLookup b k <;> simp [Option.or, objLookup, ha, hb]
  | none =>
    show (Option.map _ none).or _ = _
    rw [Option.map_none', alookup_filter_pass b _ k
      (fun v => by simp [objLookup, ha])]
    unfold objLookup
    rw [ha]
    cases hb : alookup b k <;> simp [Option.or]

theorem applyUpdate_first_match (t r : JsObj) (l1 l2 : List JsObj)
    (hm : objLookup r "refresh_token" = objLookup t "refresh_token")
    (hn : ∀ x ∈ l1, objLookup x "refresh_token" ≠ objLookup t "refresh_token") :
    applyUpdate t (l1 ++ r :: l2) =
      l1 ++ objMergeKV r (objRemove t "sessionId") :: l2 := by
  induction l1 with
  | nil => simp [applyUpdate, hm]
  | cons x xs ih =>
    have hx : objLookup x "refresh_token" ≠ objLookup t "refresh_token" :=
      hn x (by simp)
    simp only [List.cons_append, applyUpdate, if_neg hx, List.append_eq]
    rw [ih (fun y hy => hn y (by simp [hy]))]

def refreshKey (o : JsObj) : Option String := objLookup o "refresh_token"

theorem applyUpdate_keys (t : JsObj) (l : List JsObj) :
    (applyUpdate t l).map refreshKey = l.map refreshKey := by
  induction l with
  | nil => rfl
  | cons r rest ih =>
    by_cases h : objLookup r "refresh_token" = objLookup t "refresh_token"
    · simp only [applyUpdate, if_pos h, List.map_cons]
      congr 1
      show objLookup (objMergeKV r (objRemove t "sessionId")) "refresh_token" =
        objLookup r "refresh_token"
      rw [objMergeKV_lookup,
        objRemove_lookup_ne t "sessionId" "refresh_token" (by decide), ← h]
      cases hx : objLookup r "refresh_token" <;> simp [Option.or]
    · simp only [applyUpdate, if_neg h, List.map_cons, ih]

theorem applyUpdate_no_match (t : JsObj) (l : List JsObj)
    (hn : ∀ x ∈ l, objLookup x "refresh_token" ≠ objLookup t "refresh_token") :
    applyUpdate t l = l := by
  induction l with
  | nil => rfl
  | cons r rest ih =>
    have hr := hn r (by simp)
    simp only [applyUpdate, if_neg hr]
    rw [ih (fun y hy => hn y (by simp [hy]))]

theorem foldl_applyUpdate_keys (active : List JsObj) (acc : List JsObj) :
    (active.foldl (fun acc t => applyUpdate t acc) acc).map refreshKey =
      acc.map refreshKey := by
  induction active generalizing acc with
  | nil => rfl
  | cons t rest ih => rw [List.foldl_cons, ih, applyUpdate_keys]

theorem foldl_applyUpdate_no_match (active acc : List JsObj)
    (hn : ∀ t ∈ active, ∀ x ∈ acc,
      objLookup x "refresh_token" ≠ objLookup t "refresh_token") :
    active.foldl (fun acc t => applyUpdate t acc) acc = acc := by
  induction active with
  | nil => rfl
  | cons t rest ih =>
    rw [List.foldl_cons, applyUpdate_no_match t acc (hn t (by simp))]
    exact ih (fun t' ht' => hn t' (by simp [ht']))

theorem applyUpdates_keys (disk active : List JsObj) (single : Option JsObj) :
    (applyUpdates disk active single).map refreshKey = disk.map refreshKey := by
  cases single with
  | some t => exact applyUpdate_keys t disk
  | none => exact foldl_applyUpdate_keys active disk

/-- No record of `disk` shares an identity key with `t`. -/
def noTokenMatch (disk : List JsObj) (t : JsObj) : Bool :=
  disk.all (fun x => objLookup x "refresh_token" != objLookup t "refresh_token")

theorem mergeActiveTokens_good (st : StoreState) (env : FsEnv) (now : Nat)
    (sa : String) (disk active : List JsObj) (single : Option JsObj)
    (hfile : st.file = FileContent.doc sa (some disk)) (hsa : sa ≠ "")
    (hcache : st.cacheTokens = none) (hsalt : st.saltMem = none)
    (hread : env.readOk = true) (hwrite : env.writeOk = true) :
    mergeActiveTokens st active single env now =
      (Except.ok (),
        { file := FileContent.doc sa (some (applyUpdates disk active single)),
          cacheTokens := some (applyUpdates disk active single),
          cacheTime := now, cacheTTL := st.cacheTTL, saltMem := some sa }) := by
  have hcv : cacheValid st now = false := by simp [cacheValid, hcache]
  have hens : ensureFile st env = (.ok (), st) := by
    unfold ensureFile
    rw [hfile]
  have hra : readAll st env now =
      (.ok disk, { st with cacheTokens := some disk, cacheTime := now }) := by
    unfold readAll
    rw [hcv, if_neg (by decide), hens]
    dsimp only
    rw [hread, if_neg (by decide), hfile]
    rfl
  have hens1 : ensureFile { st with cacheTokens := some disk, cacheTime := now }
      env = (.ok (), { st with cacheTokens := some disk, cacheTime := now }) := by
    unfold ensureFile
    dsimp only
    rw [hfile]
  have hgs : getSalt { st with cacheTokens := some disk, cacheTime := now } env =
      (.ok sa, { st with cacheTokens := some disk, cacheTime := now,
                         saltMem := some sa }) := by
    unfold getSalt
    have hsh : saltHit { st with cacheTokens := some disk, cacheTime := now } =
        none := by
      unfold saltHit
      dsimp only
      rw [hsalt]
    rw [hsh, hens1]
    dsimp only
    rw [hread, if_neg (by decide), hfile]
    dsimp only
    rw [if_neg hsa]
    rfl
  unfold mergeActiveTokens
  rw [hra]
  dsimp only
  unfold writeAll
  rw [hens1]
  dsimp only
  rw [hgs]
  dsimp only
  rw [hwrite, if_pos rfl]

/-- Claim C4: when an active record shares its `refresh_token` with exactly
the first matching on-disk record `r` (no earlier record matches),
`mergeActiveTokens` persists the on-disk set with that position replaced by
the shallow merge of the active record minus its transient `sessionId` over
`r`, every other record unchanged; field-wise, the merged record takes the
active record's value on every field it carries except `sessionId`, falling
back to `r`, and keeps `r`'s own `sessionId` field untouched. -/
theorem merge_overlays_matching (st : StoreState) (env : FsEnv) (now : Nat)
    (sa : String) (l1 l2 : List JsObj) (r a : JsObj) (k : String)
    (hfile : st.file = FileContent.doc sa (some (l1 ++ r :: l2))) (hsa : sa ≠ "")
    (hcache : st.cacheTokens = none) (hsalt : st.saltMem = none)
    (hread : env.readOk = true) (hwrite : env.writeOk = true)
    (hmatch : objLookup r "refresh_token" = objLookup a "refresh_token")
    (hnomatch : ∀ x ∈ l1, objLookup x "refresh_token" ≠ objLookup a "refresh_token")
    (hk : k ≠ "sessionId") :
    (mergeActiveTokens st [a] none env now).1 = Except.ok () ∧
    fileTokens (mergeActiveTokens st [a] none env now).2.file =
      some (l1 ++ objMergeKV r (objRemove a "sessionId") :: l2) ∧
    objLookup (objMergeKV r (objRemove a "sessionId")) k =
      (objLookup a k).or (objLookup r k) ∧
    objLookup (objMergeKV r (objRemove a "sessionId")) "sessionId" =
      objLookup r "sessionId" := by
  have happ : applyUpdates (l1 ++ r :: l2) [a] none =
      l1 ++ objMergeKV r (objRemove a "sessionId") :: l2 := by
    simp only [applyUpdates, List.foldl_cons, List.foldl_nil]
    exact applyUpdate_first_match a r l1 l2 hmatch hnomatch
  have hmerge := mergeActiveTokens_good st env now sa (l1 ++ r :: l2) [a] none
    hfile hsa hcache hsalt hread hwrite
  rw [happ] at hmerge
  refine ⟨by rw [hmerge], by rw [hmerge]; rfl, ?_, ?_⟩
  · rw [objMergeKV_lookup, objRemove_lookup_ne a "sessionId" k hk]
  · rw [objMergeKV_lookup, objRemove_lookup_self]
    cases hx : objLookup r "sessionId" <;> simp [Option.or]

theorem merge_overlays_matching_witness :
    (mergeActiveTokens
      ⟨FileContent.doc "s" (some [[("refresh_token", "rt0")],
        [("refresh_token", "rt1"), ("x", "1")]]), none, 0, 5, none⟩
      [[("refresh_token", "rt1"), ("x", "2"), ("sessionId", "sess")]] none
      ⟨true, true, true, "f1", "f2", "f3"⟩ 7).1 = Except.ok () ∧
    fileTokens (mergeActiveTokens
      ⟨FileContent.doc "s" (some [[("refresh_token", "rt0")],
        [("refresh_token", "rt1"), ("x", "1")]]), none, 0, 5, none⟩
      [[("refresh_token", "rt1"), ("x", "2"), ("sessionId", "sess")]] none
      ⟨true, true, true, "f1", "f2", "f3"⟩ 7).2.file =
      some ([[("refresh_token", "rt0")]] ++
        objMergeKV [("refresh_token", "rt1"), ("x", "1")]
          (objRemove [("refresh_token", "rt1"), ("x", "2"), ("sessionId", "sess")]
            "sessionId") :: []) ∧
    objLookup (objMergeKV [("refresh_token", "rt1"), ("x", "1")]
      (objRemove [("refresh_token", "rt1"), ("x", "2"), ("sessionId", "sess")]
        "sessionId")) "x" =
      (objLookup [("refresh_token", "rt1"), ("x", "2"), ("sessionId", "sess")]
        "x").or
        (objLookup [("refresh_token", "rt1"), ("x", "1")] "x") ∧
    objLookup (objMergeKV [("refresh_token", "rt1"), ("x", "1")]
      (objRemove [("refresh_token", "rt1"), ("x", "2"), ("sessionId", "sess")]
        "sessionId")) "sessionId" =
      objLookup [("refresh_token", "rt1"), ("x", "1")] "sessionId" :=
  merge_overlays_matching
    ⟨FileContent.doc "s" (some [[("refresh_token", "rt0")],
      [("refresh_token", "rt1"), ("x", "1")]]), none, 0, 5, none⟩
    ⟨true, true, true, "f1", "f2", "f3"⟩ 7 "s"
    [[("refresh_token", "rt0")]] []
    [("refresh_token", "rt1"), ("x", "1")]
    [("refresh_token", "rt1"), ("x", "2"), ("sessionId", "sess")] "x"
    rfl (by decide) rfl rfl rfl rfl (by decide) (by decide) (by decide)

/-- Claim C10: `mergeActiveTokens` neither inserts nor removes records: the
persisted set is exactly `applyUpdates` of the on-disk set, whose sequence of
identity keys (`refresh_token`) is pointwise that of the on-disk set (same
length, same order); and when no active record matches any on-disk record,
the on-disk set is written back unchanged — unmatched active records are
dropped, not added. -/
theorem merge_preserves_identity (st : StoreState) (env : FsEnv) (now : Nat)
    (sa : String) (disk active : List JsObj) (single : Option JsObj)
    (hfile : st.file = FileContent.doc sa (some disk)) (hsa : sa ≠ "")
    (hcache : st.cacheTokens = none) (hsalt : st.saltMem = none)
    (hread : env.readOk = true) (hwrite : env.writeOk = true) :
    (mergeActiveTokens st active single env now).1 = Except.ok () ∧
    fileTokens (mergeActiveTokens st active single env now).2.file =
      some (applyUpdates disk active single) ∧
    (applyUpdates disk active single).map refreshKey = disk.map refreshKey ∧
    (single = none → active.all (noTokenMatch disk) = true →
      applyUpdates disk active single = disk) := by
  have hmerge := mergeActiveTokens_good st env now sa disk active single
    hfile hsa hcache hsalt hread hwrite
  refine ⟨by rw [hmerge], by rw [hmerge]; rfl, applyUpdates_keys disk active single, ?_⟩
  intro hsingle hall
  subst hsingle
  show List.foldl _ _ active = disk
  apply foldl_applyUpdate_no_match
  intro t ht x hx
  have h1 := List.all_eq_true.1 hall t ht
  have h2 := List.all_eq_true.1 h1 x hx
  simpa using h2

theorem merge_preserves_identity_witness :
    (mergeActiveTokens
      ⟨FileContent.doc "s" (some [[("refresh_token", "rt0")]]), none, 0, 5, none⟩
      [[("refresh_token", "rtZ"), ("y", "9")]] none
      ⟨true, true, true, "f1", "f2", "f3"⟩ 9).1 = Except.ok () ∧
    fileTokens (mergeActiveTokens
      ⟨FileContent.doc "s" (some [[("refresh_token", "rt0")]]), none, 0, 5, none⟩
      [[("refresh_token", "rtZ"), ("y", "9")]] none
      ⟨true, true, true, "f1", "f2", "f3"⟩ 9).2.file =
      some (applyUpdates [[("refresh_token", "rt0")]]
        [[("refresh_token", "rtZ"), ("y", "9")]] none) ∧
    (applyUpdates [[("refresh_token", "rt0")]]
        [[("refresh_token", "rtZ"), ("y", "9")]] none).map refreshKey =
      [[("refresh_token", "rt0")]].map refreshKey ∧
    ((none : Option JsObj) = none →
      [[("refresh_token", "rtZ"), ("y", "9")]].all
        (noTokenMatch [[("refresh_token", "rt0")]]) = true →
      applyUpdates [[("refresh_token", "rt0")]]
        [[("refresh_token", "rtZ"), ("y", "9")]] none =
        [[("refresh_token", "rt0")]]) :=
  merge_preserves_identity
    ⟨FileContent.doc "s" (some [[("refresh_token", "rt0")]]), none, 0, 5, none⟩
    ⟨true, true, true, "f1", "f2", "f3"⟩ 9 "s" [[("refresh_token", "rt0")]]
    [[("refresh_token", "rtZ"), ("y", "9")]] none
    rfl (by decide) rfl rfl rfl rfl
